import Mathlib

/-!
# Verification of shpck's job-distribution and target-size search layer

Shallow embedding of the core of `wish-logger/shpck` (a batch media
compression tool) and proofs about it, following the repository's
natural-language specification.

The embedded code:
* `src/utils/threadManager.js` — `ThreadManager.calculateOptimalThreads`,
  `ThreadManager.chunkFiles`, the worker message aggregation of
  `ThreadManager.createWorker` / `processFiles`;
* `src/utils/threadManager_imageFragmentation.js` —
  `splitLargeImagesIntoFragments`;
* `src/compressors/imageCompressor.js` — `compressToTargetSize` dispatch,
  `standardCompressionStrategy` (quality bisection),
  `extremeCompressionStrategy` classification/format filter and
  `selectBestStrategy`;
* `src/compressors/videoCompressor.js` — `compress` dispatch and the
  standard-tier bitrate formula of `standardCompressionStrategy`.

Encoders are modelled as oracles `Nat → Nat` (quality to output byte
size) or as explicit trial outcome lists: the JS code treats them as
black boxes and only inspects the resulting byte size and elapsed time.
-/

namespace Shpck

/-! ## ThreadManager.calculateOptimalThreads (threadManager.js lines 15-25)

```js
if (this.options.threads && this.options.ultrafast) {
  this.threadCount = Math.max(2, Math.min(parseInt(this.options.threads) * 4, 32));
} else if (this.options.threads) {
  this.threadCount = Math.max(2, Math.min(parseInt(this.options.threads) * 2, 32));
} else if (this.options.ultrafast) {
  this.threadCount = Math.max(2, Math.min(totalCores * 4, 32));
} else {
  this.threadCount = Math.max(2, Math.min(totalCores * 2, 32));
}
```
`options.threads` is modelled as `Option Nat` (the parsed integer);
JS truthiness makes `some 0` behave like an unset option. -/

def threadsIsSet (threadsOpt : Option Nat) : Bool :=
  match threadsOpt with
  | some t => t != 0
  | none => false

def calculateOptimalThreads (totalCores : Nat) (threadsOpt : Option Nat)
    (ultrafast : Bool) : Nat :=
  if threadsIsSet threadsOpt && ultrafast then
    max 2 (min (threadsOpt.getD 0 * 4) 32)
  else if threadsIsSet threadsOpt then
    max 2 (min (threadsOpt.getD 0 * 2) 32)
  else if ultrafast then
    max 2 (min (totalCores * 4) 32)
  else
    max 2 (min (totalCores * 2) 32)

/-- The pool size as the specification words it for claim C8:
`clamp(2, 32, coreCount × multiplier)`, multiplier 4 when both an explicit
thread count and the speed-optimized flag are set, else 2. -/
def specPoolSizeC8 (totalCores : Nat) (threadsOpt : Option Nat)
    (ultrafast : Bool) : Nat :=
  max 2 (min 32 (totalCores * (if threadsIsSet threadsOpt && ultrafast then 4 else 2)))

/-! ## ThreadManager.chunkFiles (threadManager.js lines 43-65)

```js
const filesPerWorker = Math.ceil(files.length / this.threadCount);
for (let i = 0; i < this.threadCount && i * filesPerWorker < files.length; i++) {
  const start = i * filesPerWorker;
  const end = Math.min(start + filesPerWorker, files.length);
  const chunk = files.slice(start, end);
  if (chunk.length > 0) { chunks.push({ files: chunk, workerIndex: i }); }
}
```
The loop is embedded through the remaining suffix of the list: at
iteration `i` the suffix `files.drop (i * filesPerWorker)` is what is
left, the loop condition `i * filesPerWorker < files.length` holds iff
that suffix is nonempty, and `files.slice(start, end)` is its
`take filesPerWorker` prefix. The `chunk.length > 0` push guard never
fires inside the loop (a nonempty suffix has a nonempty `take` prefix
for `filesPerWorker ≥ 1`). -/

def ceilDiv (a b : Nat) : Nat := (a + b - 1) / b

def chunkFilesGo (fpw : Nat) : Nat → List α → List (List α)
  | 0, _ => []
  | _ + 1, [] => []
  | n + 1, x :: xs => ((x :: xs).take fpw) :: chunkFilesGo fpw n ((x :: xs).drop fpw)

def chunkFiles (threadCount : Nat) (files : List α) : List (List α) :=
  chunkFilesGo (ceilDiv files.length threadCount) threadCount files

/-! ## Worker message aggregation (threadManager.js lines 97-201)

A worker (`compressionWorker.js`) emits per file one `progress` or
`error` message, then one `complete` message carrying every per-item
outcome; if its top-level handler catches, it emits a single
`worker_error` instead of `complete`. The coordinator
(`ThreadManager.createWorker`) pushes an entry on `results.errors` per
`error` message, counts successes of the `complete` payload into
`results.processed` / `totalSizeReduction` / `processingTimes`, and calls
`reject` on `worker_error`; `executeWorkers` awaits `Promise.all` of the
chunk promises, and `processFiles` re-throws whatever that rejects with
(after `cleanup`). Message arrival order between workers is
nondeterministic, but whether the batch resolves and, on resolution, the
aggregated counters, are order-independent: the model takes the chunks
in dispatch order, and rejection reports the first `worker_error`. -/

inductive FileOutcome where
  | ok (file : String) (originalSize compressedSize processingTime : Nat)
  | failed (file : String) (error : String)
  deriving DecidableEq, Repr

inductive ChunkOutcome where
  /-- the worker ran its whole chunk and posted `complete` -/
  | completed (results : List FileOutcome)
  /-- the worker failed before completing and posted `worker_error` -/
  | workerError (error : String)
  deriving DecidableEq, Repr

structure BatchResult where
  processed : Nat
  errors : List (String × String)
  totalSizeReduction : Int
  processingTimes : List Nat
  deriving DecidableEq, Repr

def ChunkOutcome.errorMsg : ChunkOutcome → Option String
  | .completed _ => none
  | .workerError e => some e

def fileErrors (rs : List FileOutcome) : List (String × String) :=
  rs.filterMap fun r =>
    match r with
    | .ok _ _ _ _ => none
    | .failed f e => some (f, e)

def fileSuccesses (rs : List FileOutcome) : List (Nat × Nat × Nat) :=
  rs.filterMap fun r =>
    match r with
    | .ok _ o c t => some (o, c, t)
    | .failed _ _ => none

def aggregateChunk (acc : BatchResult) : ChunkOutcome → BatchResult
  | .completed rs =>
    { processed := acc.processed + (fileSuccesses rs).length
      errors := acc.errors ++ fileErrors rs
      totalSizeReduction := acc.totalSizeReduction +
        ((fileSuccesses rs).map fun s => (s.1 : Int) - (s.2.1 : Int)).sum
      processingTimes := acc.processingTimes ++ (fileSuccesses rs).map fun s => s.2.2 }
  | .workerError _ => acc

def emptyBatch : BatchResult :=
  { processed := 0, errors := [], totalSizeReduction := 0, processingTimes := [] }

/-- `ThreadManager.processFiles` over the dispatched chunks' outcomes: a
single `worker_error` rejects `Promise.all`, and `processFiles` re-throws
it, so the batch call errors; otherwise every chunk completed and the
accumulated counters are returned. -/
def processFilesResult (chunks : List ChunkOutcome) : Except String BatchResult :=
  match chunks.filterMap ChunkOutcome.errorMsg with
  | e :: _ => .error e
  | [] => .ok (chunks.foldl aggregateChunk emptyBatch)

/-- **C1 counterexample**: a batch of 8 dispatched chunks of one file
each where the last chunk's worker emits a single `worker_error`. The
claim predicts the batch resolves with `processed = 7` and one error per
file of the failed chunk; the code instead rejects the whole batch
(`worker_error` → promise `reject` → `Promise.all` rejects →
`processFiles` re-throws). -/
def c1CexChunks : List ChunkOutcome :=
  List.replicate 7 (ChunkOutcome.completed [FileOutcome.ok "f" 10 5 1]) ++
    [ChunkOutcome.workerError "boom"]

/-! ## Target size parsing (imageCompressor.js lines 706-724,
videoCompressor.js lines 1137-1155)

```js
const match = targetSize.toString().match(/^(\d+(?:\.\d+)?)\s*(B|KB|MB|GB)?$/i);
const value = parseFloat(match[1]);
const unit = (match[2] || 'B').toUpperCase();
return Math.floor(value * units[unit]);
```
The regex front end is out of scope; the numeric core takes the matched
decimal value and unit. -/

inductive SizeUnit where
  | B | KB | MB | GB
  deriving DecidableEq, Repr

def unitBytes : SizeUnit → Nat
  | .B => 1
  | .KB => 1024
  | .MB => 1024 * 1024
  | .GB => 1024 * 1024 * 1024

def parseTargetSize (value : ℚ) (unit : SizeUnit) : ℤ :=
  ⌊value * (unitBytes unit : ℚ)⌋

/-! ## Search mode dispatch

Image (`ImageCompressor.compressToTargetSize`, imageCompressor.js lines
204-226):
```js
const compressionRatio = targetSize / originalSize;
if (compressionRatio < 0.10) { return await this.extremeCompressionStrategy(...); }
return await this.standardCompressionStrategy(..., maxAttempts /* 25 */);
```
Video (`VideoCompressor.compress`, videoCompressor.js lines 95-104):
```js
if ((targetBytes / originalSize) < 0.15) { ... extremeCompressionStrategy ... }
else { ... standardCompressionStrategy ... }
```
The ratio tests are embedded multiplicatively: `target/orig < 0.10` iff
`target * 10 < orig` for `orig > 0`, and for `orig = 0` the JS comparison
on `Infinity`/`NaN` is false, which the multiplicative form also gives.
Neither function ever rejects the request: the `invalidRequest`
constructor exists so the specification's expected outcome is statable,
and the dispatchers never produce it. -/

inductive SearchMode where
  | invalidRequest | standardSearch | extremeSearch
  deriving DecidableEq, Repr

def imageCompressMode (originalSize targetSize : Nat) : SearchMode :=
  if targetSize * 10 < originalSize then .extremeSearch else .standardSearch

def videoCompressMode (originalSize targetBytes : Nat) : SearchMode :=
  if targetBytes * 100 < originalSize * 15 then .extremeSearch else .standardSearch

/-! ## Image standard-tier quality bisection
(`ImageCompressor.standardCompressionStrategy`, imageCompressor.js lines
555-612, jpeg/webp/avif branch)

```js
let minQ = 5;
let maxQ = baseOptions.quality || 85;
...
while (minQ <= maxQ && attempts < maxAttempts) {
  const q = Math.floor((minQ + maxQ) / 2);
  ... buffer = await inst.jpeg({ quality: q, ... }).toBuffer(); ...
  if (buffer.length <= targetSize) { lastGoodQ = q; lastGoodBuffer = buffer; bestSize = buffer.length; minQ = q + 1; }
  else { maxQ = q - 1; }
  attempts++;
}
if (lastGoodBuffer) { await fs.writeFile(outputPath, lastGoodBuffer); return outputPath; }
else { /* fresh encode at quality minQ, write it */ }
```
The encoder is an oracle `enc : Nat → Nat` from quality to output byte
size (deterministic for fixed parameters per the spec). `maxQ = q - 1`
uses truncated `Nat` subtraction; it only differs from JS when `q = 0`,
which cannot happen here since `minQ` starts at 5 and never decreases. -/

def stdLoop (enc : Nat → Nat) (target : Nat) :
    Nat → Nat → Nat → Option (Nat × Nat) → List (Nat × Nat) →
      List (Nat × Nat) × Option (Nat × Nat) × Nat
  | 0, minQ, _, lastGood, trials => (trials, lastGood, minQ)
  | fuel + 1, minQ, maxQ, lastGood, trials =>
    if minQ ≤ maxQ then
      let q := (minQ + maxQ) / 2
      let s := enc q
      if s ≤ target then
        stdLoop enc target fuel (q + 1) maxQ (some (q, s)) (trials ++ [(q, s)])
      else
        stdLoop enc target fuel minQ (q - 1) lastGood (trials ++ [(q, s)])
    else (trials, lastGood, minQ)

structure StdSearchResult where
  /-- byte size of the buffer written to `outputPath` -/
  size : Nat
  /-- the quality it was encoded at -/
  quality : Nat
  /-- every encoder invocation of the call, in order, as (quality, size) -/
  trials : List (Nat × Nat)
  /-- whether `lastGoodBuffer` existed (some trial fit the budget) -/
  fitted : Bool
  deriving DecidableEq, Repr

def standardCompressionStrategy (enc : Nat → Nat) (target maxQ0 maxAttempts : Nat) :
    StdSearchResult :=
  match (stdLoop enc target maxAttempts 5 maxQ0 none []).2.1 with
  | some (q, s) =>
    { size := s, quality := q,
      trials := (stdLoop enc target maxAttempts 5 maxQ0 none []).1, fitted := true }
  | none =>
    { size := enc (stdLoop enc target maxAttempts 5 maxQ0 none []).2.2,
      quality := (stdLoop enc target maxAttempts 5 maxQ0 none []).2.2,
      trials := (stdLoop enc target maxAttempts 5 maxQ0 none []).1 ++
        [((stdLoop enc target maxAttempts 5 maxQ0 none []).2.2,
          enc (stdLoop enc target maxAttempts 5 maxQ0 none []).2.2)],
      fitted := false }

/-- Length of the bisection loop's trial list when every probe overflows
the budget (the trajectory is then independent of the encoder: the
overflow branch always fires). Used to bound the no-fit trial count. -/
def overflowLen : Nat → Nat → Nat → Nat
  | 0, _, _ => 0
  | fuel + 1, minQ, maxQ =>
    if minQ ≤ maxQ then overflowLen fuel minQ ((minQ + maxQ) / 2 - 1) + 1 else 0

/-- **C5 counterexample encoder**: all probed qualities overflow the
40-byte budget, and the encoder is not monotone — quality 6 encodes to 50
bytes while quality 5 encodes to 60. -/
def c5CexEnc : Nat → Nat := fun q =>
  if q = 45 then 100
  else if q = 24 then 90
  else if q = 14 then 80
  else if q = 9 then 70
  else if q = 6 then 50
  else if q = 5 then 60
  else 1000

/-! ## Video standard-tier bitrate formula
(`VideoCompressor.standardCompressionStrategy`, videoCompressor.js lines
747-752)

```js
const duration = metadata.format?.duration || 60;
const audioBitrate = 96;
const overheadFactor = 0.85;
const targetBitrate = Math.floor(((targetSize * 8 * overheadFactor) / duration - audioBitrate * 1024) / 1024);
const finalBitrate = Math.max(100, Math.min(targetBitrate, 10000));
```
The probed duration is an `Option ℚ` (absent when ffprobe is missing or
the field unreadable); JS `||` replaces both a missing and a zero
duration by 60. -/

def jsDurationOr60 (durOpt : Option ℚ) : ℚ :=
  match durOpt with
  | some x => if x = 0 then 60 else x
  | none => 60

def standardVideoBitrate (targetSize : ℚ) (durOpt : Option ℚ) : ℤ :=
  max 100 (min
    ⌊((targetSize * 8 * (85 / 100 : ℚ)) / jsDurationOr60 durOpt - 96 * 1024) / 1024⌋
    10000)

/-- The duration as claim C9 words it: the probed value when it is a
positive readable value, the 60-second constant otherwise. -/
def specDurationC9 (durOpt : Option ℚ) : ℚ :=
  match durOpt with
  | some x => if 0 < x then x else 60
  | none => 60

/-- The bitrate as claim C9 words it: the same clamped formula over
`specDurationC9`. -/
def specVideoBitrateC9 (targetSize : ℚ) (durOpt : Option ℚ) : ℤ :=
  max 100 (min 10000
    ⌊((targetSize * 8 * (85 / 100 : ℚ)) / specDurationC9 durOpt - 96 * 1024) / 1024⌋)

/-! ## Image extreme-tier trial classification and selection
(`ImageCompressor.extremeCompressionStrategy`, imageCompressor.js lines
348-430, and `ImageCompressor.selectBestStrategy`, lines 466-525)

```js
const successful = results.filter(r => r.success && !r.error).sort((a, b) => a.size - b.size);
const fastest = results.filter(r => r.success && !r.error).sort((a, b) => a.processingTime - b.processingTime)[0];
const bestQuality = results.filter(r => r.success && !r.error).sort((a, b) => b.size - a.size)[0];
if (successful.length > 0) {
  let filteredSuccessful = successful; ... // = successful.filter(fmt) under an explicit format
  filteredBestQuality = filteredSuccessful.length > 0 ?
    filteredSuccessful.sort((a, b) => b.size - a.size)[0] : null;   // sorts IN PLACE
  ...
  switch (strategy) { case 'size': chosen = filteredSuccessful[0]; ... }
}
```
A trial's `success` flag is set at creation as `buffer.length <= targetSize`
(errored trials carry `success: false`). `Array.prototype.sort` is stable
(ES2019), modelled by a stable insertion sort. The trial's `index` field
models JS object identity (`fastest === smallest`): every real run gives
its trials distinct indices. The time-saving branch after the
quality-headroom `return`/`else`-`return` (lines 511-517) is unreachable
and not modelled. -/

inductive ImgFormat where
  | png | jpeg | webp
  deriving DecidableEq, Repr

structure ExtremeTrial where
  /-- position in the strategy list; stands in for JS object identity -/
  index : Nat
  format : ImgFormat
  size : Nat
  processingTime : Nat
  /-- the encoder threw; `success` is then false whatever the size -/
  errored : Bool
  deriving DecidableEq, Repr

def trialSuccess (target : Nat) (t : ExtremeTrial) : Bool :=
  !t.errored && t.size ≤ target

def sizeLtB (a b : ExtremeTrial) : Bool := a.size < b.size

def timeLtB (a b : ExtremeTrial) : Bool := a.processingTime < b.processingTime

def sizeGtB (a b : ExtremeTrial) : Bool := b.size < a.size

def formatIs (f : ImgFormat) (t : ExtremeTrial) : Bool := t.format == f

/-- Stable insertion: `t` is placed before `u` only when strictly
before it under `lt`, so ties keep their original order — the stability
contract of `Array.prototype.sort`. -/
def insertBy (lt : α → α → Bool) (t : α) : List α → List α
  | [] => [t]
  | u :: us => if lt u t then u :: insertBy lt t us else t :: u :: us

/-- Stable sort modelling `Array.prototype.sort(cmp)` for a strict
comparator. -/
def jsSort (lt : α → α → Bool) : List α → List α
  | [] => []
  | x :: xs => insertBy lt x (jsSort lt xs)

/-- The first element of a list that is minimal for `lt` (ties resolved
to the earliest) — the head of the stable ascending sort. -/
def firstBy (lt : α → α → Bool) : List α → Option α
  | [] => none
  | x :: xs =>
    match firstBy lt xs with
    | none => some x
    | some u => if lt u x then some u else some x

inductive SelPolicy where
  | size | speed | quality | auto
  deriving DecidableEq, Repr

/-- `ImageCompressor.selectBestStrategy(successful, fastest, bestQuality,
targetSize)` (imageCompressor.js lines 466-525): the `successful`
argument is whatever array the caller passes (ascending, or descending
after the format-branch in-place sort); `smallest` is its `[0]`; the
length-1 early return, the `fastest === smallest` free win, and the
95%-of-budget quality-utilization rule follow the source order. -/
def selectBestStrategy :
    List ExtremeTrial → Option ExtremeTrial → Option ExtremeTrial → Nat →
      Option ExtremeTrial
  | [], _, _, _ => none
  | smallest :: rest, fastest, bestQuality, targetSize =>
    if rest.isEmpty then some smallest
    else if fastest = some smallest then some smallest
    else
      match bestQuality with
      | some bq =>
        if ((bq.size : ℚ) / (targetSize : ℚ)) * 100 ≤ 95 then some bq
        else some smallest
      | none => some smallest

/-- The `switch (strategy)` of `extremeCompressionStrategy` (lines
413-430) over the (possibly filtered and re-sorted) candidate sets. -/
def choosePolicy (policy : SelPolicy) (lst : List ExtremeTrial)
    (fastest bestQuality : Option ExtremeTrial) (target : Nat) :
    Option ExtremeTrial :=
  match policy with
  | .size => lst.head?
  | .speed =>
    match fastest with
    | some fx => some fx
    | none => lst.head?
  | .quality =>
    match bestQuality with
    | some bq => some bq
    | none => lst.head?
  | .auto => selectBestStrategy lst fastest bestQuality target

/-- The selection pipeline of `extremeCompressionStrategy` (lines
348-430): classify, optionally filter by the requested output format
(falling back to the unfiltered sets when no trial of that format
succeeded), and choose by policy. Returns `none` when no trial succeeded
(the code then falls back to `standardCompressionStrategy`); the JS
`successful.length > 0` guard is checked before looking at the format
option, and moving the guard inside each format branch leaves every
output unchanged. The descending `jsSort sizeGtB` on the filtered list
models the in-place `filteredSuccessful.sort((a, b) => b.size - a.size)`
that the `filteredBestQuality` computation performs before the `switch`
runs — the `'size'` case's `filteredSuccessful[0]` therefore reads the
mutated, descending array. -/
def extremeSelect (results : List ExtremeTrial) (target : Nat) :
    Option ImgFormat → SelPolicy → Option ExtremeTrial
  | some f, policy =>
    if (jsSort sizeLtB (results.filter (trialSuccess target))).isEmpty then none
    else if ((jsSort sizeLtB (results.filter (trialSuccess target))).filter
        (formatIs f)).isEmpty then
      choosePolicy policy (jsSort sizeLtB (results.filter (trialSuccess target)))
        ((jsSort timeLtB (results.filter (trialSuccess target))).head?)
        ((jsSort sizeGtB (results.filter (trialSuccess target))).head?) target
    else
      choosePolicy policy
        (jsSort sizeGtB ((jsSort sizeLtB (results.filter (trialSuccess target))).filter
          (formatIs f)))
        ((jsSort timeLtB (results.filter
          (fun r => trialSuccess target r && formatIs f r))).head?)
        ((jsSort sizeGtB ((jsSort sizeLtB (results.filter (trialSuccess target))).filter
          (formatIs f))).head?) target
  | none, policy =>
    if (jsSort sizeLtB (results.filter (trialSuccess target))).isEmpty then none
    else
      choosePolicy policy (jsSort sizeLtB (results.filter (trialSuccess target)))
        ((jsSort timeLtB (results.filter (trialSuccess target))).head?)
        ((jsSort sizeGtB (results.filter (trialSuccess target))).head?) target

/-- The auto rule exactly as claim C6 words it, over the successful
trial set: the fastest and smallest successful trials if they coincide,
else the best-quality successful trial when its size is at most 95% of
the budget, else the smallest. -/
def specAutoCore : Option ExtremeTrial → Option ExtremeTrial →
    Option ExtremeTrial → Nat → Option ExtremeTrial
  | none, _, _, _ => none
  | some smallest, fastest, bq, target =>
    if fastest = some smallest then some smallest
    else
      match bq with
      | some b => if 100 * b.size ≤ 95 * target then some b else some smallest
      | none => some smallest

def specAutoChoiceC6 (ok : List ExtremeTrial) (target : Nat) :
    Option ExtremeTrial :=
  specAutoCore (firstBy sizeLtB ok) (firstBy timeLtB ok) (firstBy sizeGtB ok)
    target

/-- **C6 counterexample trials**: two successful JPEG trials; trial 1 is
both the smallest (10 bytes) and the fastest (1 ms), trial 0 is the
best-quality one (20 bytes) sitting exactly at 100% of the 20-byte
budget. -/
def c6CexTrials : List ExtremeTrial :=
  [⟨0, ImgFormat.jpeg, 20, 5, false⟩, ⟨1, ImgFormat.jpeg, 10, 1, false⟩]

/-! ## Image fragmentation (threadManager_imageFragmentation.js lines 12-45)

```js
const MIN_FRAGMENT_SIZE = 100 * 1024 * 1024;
const MIN_FRAGMENTS = 2;
for (const file of files) {
  const ext = path.extname(file).toLowerCase();
  if (!['.jpg', '.jpeg', '.png', '.webp', '.avif', '.bmp', '.tiff'].includes(ext)) { result.push(file); continue; }
  const stat = await fs.stat(file);
  if (stat.size < MIN_FRAGMENT_SIZE) { result.push(file); continue; }
  const fragments = Math.max(MIN_FRAGMENTS, threadCount);
  const fragmentHeight = Math.floor(metadata.height / fragments);
  for (let i = 0; i < fragments; i++) {
    const top = i * fragmentHeight;
    const height = (i === fragments - 1) ? (metadata.height - top) : fragmentHeight;
    ... result.push({ buffer, fragmentIndex: i, totalFragments: fragments, originalFile: file, ext });
  }
}
```
A file is its extension (as `path.extname` returns it), its on-disk byte
size, and its pixel dimensions; the sequential loop appending either the
file or its fragments is the flatten of the per-file expansion. -/

structure MediaFile where
  ext : String
  size : Nat
  width : Nat
  height : Nat
  deriving DecidableEq, Repr

inductive FragItem where
  /-- the file passed through untouched -/
  | file (f : MediaFile)
  /-- one extracted horizontal band: origin, `fragmentIndex`,
  `totalFragments`, and the extract region's `top` row and `height` -/
  | fragment (origin : MediaFile) (fragmentIndex totalFragments top height : Nat)
  deriving DecidableEq, Repr

def imageExts : List String :=
  [".jpg", ".jpeg", ".png", ".webp", ".avif", ".bmp", ".tiff"]

def minFragmentSize : Nat := 100 * 1024 * 1024

def minFragments : Nat := 2

def fragTop (imageHeight fragments i : Nat) : Nat :=
  i * (imageHeight / fragments)

def fragHeight (imageHeight fragments i : Nat) : Nat :=
  if i = fragments - 1 then imageHeight - fragTop imageHeight fragments i
  else imageHeight / fragments

def expandFile (threadCount : Nat) (f : MediaFile) : List FragItem :=
  if !(imageExts.contains f.ext.toLower) then [FragItem.file f]
  else if f.size < minFragmentSize then [FragItem.file f]
  else
    (List.range (max minFragments threadCount)).map fun i =>
      FragItem.fragment f i (max minFragments threadCount)
        (fragTop f.height (max minFragments threadCount) i)
        (fragHeight f.height (max minFragments threadCount) i)

def splitLargeImagesIntoFragments (files : List MediaFile) (threadCount : Nat) :
    List FragItem :=
  (files.map (expandFile threadCount)).flatten

theorem ceilDiv_pos {a b : Nat} (ha : 1 ≤ a) (hb : 1 ≤ b) : 1 ≤ ceilDiv a b := by
  unfold ceilDiv
  rw [Nat.le_div_iff_mul_le hb]
  omega

theorem ceilDiv_zero_left (b : Nat) : ceilDiv 0 b = 0 := by
  cases b with
  | zero => rfl
  | succ n =>
    unfold ceilDiv
    apply Nat.div_eq_of_lt
    omega

theorem le_mul_ceilDiv (a : Nat) {b : Nat} (hb : 1 ≤ b) : a ≤ b * ceilDiv a b := by
  unfold ceilDiv
  have h1 := Nat.div_add_mod (a + b - 1) b
  have h2 : (a + b - 1) % b < b := Nat.mod_lt _ hb
  have h3 : b * ((a + b - 1) / b) = (a + b - 1) - (a + b - 1) % b := by omega
  omega

theorem chunkFilesGo_flatten (fpw : Nat) (hfpw : 1 ≤ fpw) :
    ∀ (n : Nat) (files : List α), files.length ≤ n * fpw →
      (chunkFilesGo fpw n files).flatten = files := by
  intro n
  induction n with
  | zero =>
    intro files h
    have : files = [] := List.eq_nil_of_length_eq_zero (by omega)
    simp [this, chunkFilesGo]
  | succ k ih =>
    intro files h
    rw [Nat.succ_mul] at h
    cases files with
    | nil => simp [chunkFilesGo]
    | cons x xs =>
      rw [chunkFilesGo, List.flatten_cons, ih _ (by simp at h ⊢; omega),
        List.take_append_drop]

theorem chunkFilesGo_length (fpw : Nat) (hfpw : 1 ≤ fpw) :
    ∀ (n : Nat) (files : List α), files.length ≤ n * fpw →
      (chunkFilesGo fpw n files).length = ceilDiv files.length fpw := by
  intro n
  induction n with
  | zero =>
    intro files h
    have : files = [] := List.eq_nil_of_length_eq_zero (by omega)
    simp [this, chunkFilesGo, ceilDiv_zero_left]
  | succ k ih =>
    intro files h
    rw [Nat.succ_mul] at h
    cases files with
    | nil => simp [chunkFilesGo, ceilDiv_zero_left]
    | cons x xs =>
      rw [chunkFilesGo, List.length_cons, ih _ (by simp at h ⊢; omega)]
      have hlen : ((x :: xs).drop fpw).length = (x :: xs).length - fpw := by
        simp
      rw [hlen]
      have hL1 : 1 ≤ (x :: xs).length := by simp
      generalize (x :: xs).length = L at *
      show ceilDiv (L - fpw) fpw + 1 = ceilDiv L fpw
      unfold ceilDiv
      have e2 : L + fpw - 1 = (L - 1) + fpw := by omega
      rw [e2, Nat.add_div_right _ (by omega)]
      rcases Nat.le_total L fpw with hc | hc
      · have e1 : L - fpw + fpw - 1 = fpw - 1 := by omega
        rw [e1, Nat.div_eq_of_lt (by omega), Nat.div_eq_of_lt (show L - 1 < fpw by omega)]
      · have e1 : L - fpw + fpw - 1 = L - 1 := by omega
        rw [e1]

theorem chunkFilesGo_sizes (fpw : Nat) (hfpw : 1 ≤ fpw) :
    ∀ (n : Nat) (files : List α), files.length ≤ n * fpw →
      ∀ c ∈ chunkFilesGo fpw n files, 1 ≤ c.length ∧ c.length ≤ fpw := by
  intro n
  induction n with
  | zero =>
    intro files h c hc
    simp [chunkFilesGo] at hc
  | succ k ih =>
    intro files h c hc
    rw [Nat.succ_mul] at h
    cases files with
    | nil => simp [chunkFilesGo] at hc
    | cons x xs =>
      rw [chunkFilesGo] at hc
      rcases List.mem_cons.mp hc with h1 | h1
      · subst h1
        constructor
        · simp [List.length_take]; omega
        · simp [List.length_take]
      · exact ih _ (by simp at h ⊢; omega) c h1

theorem chunkFilesGo_head_sizes (fpw : Nat) (hfpw : 1 ≤ fpw) :
    ∀ (n : Nat) (files : List α), files.length ≤ n * fpw →
      ∀ i, i + 1 < (chunkFilesGo fpw n files).length →
        ((chunkFilesGo fpw n files).getD i []).length = fpw := by
  intro n
  induction n with
  | zero =>
    intro files h i hi
    simp [chunkFilesGo] at hi
  | succ k ih =>
    intro files h i hi
    rw [Nat.succ_mul] at h
    cases files with
    | nil => simp [chunkFilesGo] at hi
    | cons x xs =>
      rw [chunkFilesGo] at hi ⊢
      cases i with
      | zero =>
        simp only [List.getD, List.getElem?_cons_zero, Option.getD_some]
        simp only [List.length_cons] at hi
        have h2 : 1 ≤ (chunkFilesGo fpw k ((x :: xs).drop fpw)).length := by omega
        have h3 : (x :: xs).drop fpw ≠ [] := by
          intro hnil
          rw [hnil] at h2
          cases k <;> simp [chunkFilesGo] at h2
        have h4 : fpw < (x :: xs).length := by
          by_contra hle
          exact h3 (List.drop_eq_nil_of_le (by omega))
        simp only [List.length_cons] at h4
        simp [List.length_take]
        omega
      | succ j =>
        simp only [List.getD, List.getElem?_cons_succ]
        simp only [List.length_cons] at hi
        exact ih _ (by simp at h ⊢; omega) j (by omega)

theorem chunkFilesGo_length_le (fpw : Nat) :
    ∀ (n : Nat) (files : List α), (chunkFilesGo fpw n files).length ≤ n := by
  intro n
  induction n with
  | zero => intro files; simp [chunkFilesGo]
  | succ k ih =>
    intro files
    cases files with
    | nil => simp [chunkFilesGo]
    | cons x xs =>
      rw [chunkFilesGo, List.length_cons]
      exact Nat.succ_le_succ (ih _)

theorem chunkFiles_len_bound (files : List α) {N : Nat} (hN : 1 ≤ N) :
    files.length ≤ N * ceilDiv files.length N :=
  le_mul_ceilDiv files.length hN

end Shpck

namespace Shpck

/-- **C4** (confirmed). For every input list and worker count `N ≥ 1` (the
pool size is always at least 2), `ThreadManager.chunkFiles` produces
chunks that are contiguous, pairwise disjoint subsequences: their
in-order concatenation is exactly the input list, their sizes sum to the
input length, and there are at most `N` of them. -/
theorem C4_chunkFiles_partition (files : List α) (N : Nat) (hN : 1 ≤ N) :
    (chunkFiles N files).flatten = files ∧
    ((chunkFiles N files).map List.length).sum = files.length ∧
    (chunkFiles N files).length ≤ N := by
  rcases List.eq_nil_or_concat files with hnil | ⟨_, _, hne⟩
  · subst hnil
    refine ⟨?_, ?_, ?_⟩
    · cases N <;> simp [chunkFiles, chunkFilesGo]
    · cases N <;> simp [chunkFiles, chunkFilesGo]
    · exact chunkFilesGo_length_le _ _ _
  · have hlen : 1 ≤ files.length := by subst hne; simp
    have hfpw : 1 ≤ ceilDiv files.length N := ceilDiv_pos hlen hN
    have hbound := chunkFiles_len_bound files hN
    have hflat : (chunkFiles N files).flatten = files :=
      chunkFilesGo_flatten (ceilDiv files.length N) hfpw N files hbound
    refine ⟨hflat, ?_, chunkFilesGo_length_le _ _ _⟩
    calc ((chunkFiles N files).map List.length).sum
        = (chunkFiles N files).flatten.length := (List.length_flatten _).symm
      _ = files.length := by rw [hflat]

/-- **C4 witness**: the partition property evaluated at a concrete batch of
5 files and 2 workers. -/
theorem C4_chunkFiles_partition_witness :
    (chunkFiles 2 [0, 1, 2, 3, 4]).flatten = [0, 1, 2, 3, 4] ∧
    ((chunkFiles 2 [0, 1, 2, 3, 4]).map List.length).sum = [0, 1, 2, 3, 4].length ∧
    (chunkFiles 2 [0, 1, 2, 3, 4]).length ≤ 2 :=
  C4_chunkFiles_partition [0, 1, 2, 3, 4] 2 (by decide)

/-- **C3 counterexample**: with 3 files and `threadCount = 4`,
`chunkFiles` yields `ceil(3/4) = 1` file per worker and hence **3**
chunks, while the claimed formula `min(N, ceil(L/N)) = min(4, 1)` says
there should be exactly one chunk. -/
theorem C3_chunk_count_cex :
    (chunkFiles 4 [0, 1, 2]).length = 3 ∧
    min 4 (ceilDiv [0, 1, 2].length 4) = 1 ∧
    (chunkFiles 4 [0, 1, 2]).length ≠ min 4 (ceilDiv [0, 1, 2].length 4) := by
  refine ⟨by decide, by decide, by decide⟩

/-- **C3** (corrected). For every non-empty input list of length `L` and
worker count `N ≥ 1`, `chunkFiles` produces exactly
`ceil(L / ceil(L/N))` non-empty chunks (a number that is at most `N`,
but in general differs from the claimed `min(N, ceil(L/N))`); every
chunk has `ceil(L/N)` items except possibly the last, which may be
shorter but is never empty. -/
theorem C3_chunk_count (files : List α) (N : Nat) (hN : 1 ≤ N)
    (hne : files ≠ []) :
    (chunkFiles N files).length = ceilDiv files.length (ceilDiv files.length N) ∧
    (∀ c ∈ chunkFiles N files, 1 ≤ c.length ∧ c.length ≤ ceilDiv files.length N) ∧
    (∀ i, i + 1 < (chunkFiles N files).length →
      ((chunkFiles N files).getD i []).length = ceilDiv files.length N) := by
  have hlen : 1 ≤ files.length := by
    cases files with
    | nil => exact absurd rfl hne
    | cons x xs => simp
  have hfpw : 1 ≤ ceilDiv files.length N := ceilDiv_pos hlen hN
  have hbound := chunkFiles_len_bound files hN
  exact ⟨chunkFilesGo_length _ hfpw N files hbound,
    chunkFilesGo_sizes _ hfpw N files hbound,
    chunkFilesGo_head_sizes _ hfpw N files hbound⟩

/-- **C3 witness**: the corrected chunk count evaluated at 5 files and 2
workers: `ceil(5/2) = 3` files per chunk, `ceil(5/3) = 2` chunks. -/
theorem C3_chunk_count_witness :
    (chunkFiles 2 [0, 1, 2, 3, 4]).length =
      ceilDiv [0, 1, 2, 3, 4].length (ceilDiv [0, 1, 2, 3, 4].length 2) ∧
    (∀ c ∈ chunkFiles 2 [0, 1, 2, 3, 4],
      1 ≤ c.length ∧ c.length ≤ ceilDiv [0, 1, 2, 3, 4].length 2) ∧
    (∀ i, i + 1 < (chunkFiles 2 [0, 1, 2, 3, 4]).length →
      ((chunkFiles 2 [0, 1, 2, 3, 4]).getD i []).length =
        ceilDiv [0, 1, 2, 3, 4].length 2) :=
  C3_chunk_count [0, 1, 2, 3, 4] 2 (by decide) (by decide)

/-- **C8 counterexample**: with 8 cores, no explicit thread count and the
ultrafast flag set (only one of the two options), the code multiplies the
core count by **4** (`totalCores * 4` branch) and yields a pool of 32
workers, while the claimed rule (multiplier 2 when only one option is
set) yields 16. -/
theorem C8_pool_size_cex :
    calculateOptimalThreads 8 none true = 32 ∧
    specPoolSizeC8 8 none true = 16 ∧
    calculateOptimalThreads 8 none true ≠ specPoolSizeC8 8 none true := by
  refine ⟨by decide, by decide, by decide⟩

/-- **C8** (corrected). The pool size is `clamp(2, 32, base × multiplier)`
where the base is the explicit thread count when one is set (else the
core count) and the multiplier is 4 whenever the speed-optimized
(ultrafast) flag is set — also when it is set alone — and 2 otherwise. -/
theorem C8_pool_size (totalCores : Nat) (threadsOpt : Option Nat)
    (ultrafast : Bool) :
    calculateOptimalThreads totalCores threadsOpt ultrafast =
      max 2 (min 32
        ((if threadsIsSet threadsOpt then threadsOpt.getD 0 else totalCores) *
          (if ultrafast then 4 else 2))) := by
  cases threadsOpt with
  | none =>
    cases ultrafast <;> simp [calculateOptimalThreads, threadsIsSet] <;> omega
  | some t =>
    by_cases ht : t = 0 <;>
      cases ultrafast <;>
        simp [calculateOptimalThreads, threadsIsSet, ht] <;> omega

theorem C1_worker_error_cex :
    processFilesResult c1CexChunks = Except.error "boom" ∧
    ¬ ∃ b, processFilesResult c1CexChunks = Except.ok b ∧
      b.processed = 7 ∧ b.errors.length = 1 := by
  have h : processFilesResult c1CexChunks = Except.error "boom" := by rfl
  refine ⟨h, ?_⟩
  rintro ⟨b, hb, -⟩
  rw [h] at hb
  cases hb

/-- **C1** (corrected). If any dispatched chunk's worker fails before
completing its chunk (emitting a `worker_error`), the batch does **not**
resolve to a partial result object: `processFiles` rejects with that
worker's error, and no per-file error entries for the failed chunk are
ever returned. -/
theorem C1_worker_error_rejects_batch (chunks : List ChunkOutcome)
    (h : ∃ e, ChunkOutcome.workerError e ∈ chunks) :
    (∃ m, processFilesResult chunks = Except.error m) ∧
    ∀ b, processFilesResult chunks ≠ Except.ok b := by
  obtain ⟨e, hmem⟩ := h
  have hmem' : e ∈ chunks.filterMap ChunkOutcome.errorMsg :=
    List.mem_filterMap.mpr ⟨_, hmem, rfl⟩
  unfold processFilesResult
  cases hfm : chunks.filterMap ChunkOutcome.errorMsg with
  | nil => rw [hfm] at hmem'; cases hmem'
  | cons a t =>
    refine ⟨⟨a, rfl⟩, ?_⟩
    intro b hb
    cases hb

/-- **C1 witness**: the rejection behaviour evaluated at the concrete
8-chunk batch of the counterexample. -/
theorem C1_worker_error_rejects_batch_witness :
    (∃ m, processFilesResult c1CexChunks = Except.error m) ∧
    ∀ b, processFilesResult c1CexChunks ≠ Except.ok b :=
  C1_worker_error_rejects_batch c1CexChunks ⟨"boom", by decide⟩

theorem stdLoop_trials_ext (enc : Nat → Nat) (target : Nat) :
    ∀ (fuel minQ maxQ : Nat) (lg : Option (Nat × Nat)) (acc : List (Nat × Nat)),
      ∃ tl, (stdLoop enc target fuel minQ maxQ lg acc).1 = acc ++ tl ∧
        tl.length ≤ fuel := by
  intro fuel
  induction fuel with
  | zero => intro minQ maxQ lg acc; exact ⟨[], by simp [stdLoop]⟩
  | succ k ih =>
    intro minQ maxQ lg acc
    rw [stdLoop]
    by_cases hle : minQ ≤ maxQ
    · rw [if_pos hle]
      by_cases hfit : enc ((minQ + maxQ) / 2) ≤ target
      · rw [if_pos hfit]
        obtain ⟨tl, htl, hlen⟩ := ih _ _ _ (acc ++ [((minQ + maxQ) / 2, enc ((minQ + maxQ) / 2))])
        exact ⟨((minQ + maxQ) / 2, enc ((minQ + maxQ) / 2)) :: tl,
          by rw [htl, List.append_assoc]; rfl, by simp; omega⟩
      · rw [if_neg hfit]
        obtain ⟨tl, htl, hlen⟩ := ih _ _ _ (acc ++ [((minQ + maxQ) / 2, enc ((minQ + maxQ) / 2))])
        exact ⟨((minQ + maxQ) / 2, enc ((minQ + maxQ) / 2)) :: tl,
          by rw [htl, List.append_assoc]; rfl, by simp; omega⟩
    · rw [if_neg hle]
      exact ⟨[], by simp⟩

theorem stdLoop_some_of_some (enc : Nat → Nat) (target : Nat) :
    ∀ (fuel minQ maxQ : Nat) (p : Nat × Nat) (acc : List (Nat × Nat)),
      ((stdLoop enc target fuel minQ maxQ (some p) acc).2.1).isSome := by
  intro fuel
  induction fuel with
  | zero => intro minQ maxQ p acc; simp [stdLoop]
  | succ k ih =>
    intro minQ maxQ p acc
    rw [stdLoop]
    by_cases hle : minQ ≤ maxQ
    · rw [if_pos hle]
      by_cases hfit : enc ((minQ + maxQ) / 2) ≤ target
      · rw [if_pos hfit]; exact ih _ _ _ _
      · rw [if_neg hfit]; exact ih _ _ _ _
    · rw [if_neg hle]; simp

theorem stdLoop_fit (enc : Nat → Nat) (target : Nat) :
    ∀ (fuel minQ maxQ : Nat) (lg : Option (Nat × Nat)) (acc : List (Nat × Nat)),
      (∀ q s, lg = some (q, s) → s ≤ target) →
      ∀ q s, (stdLoop enc target fuel minQ maxQ lg acc).2.1 = some (q, s) →
        s ≤ target := by
  intro fuel
  induction fuel with
  | zero =>
    intro minQ maxQ lg acc hlg q s h
    simp [stdLoop] at h
    exact hlg q s h
  | succ k ih =>
    intro minQ maxQ lg acc hlg q s h
    rw [stdLoop] at h
    by_cases hle : minQ ≤ maxQ
    · rw [if_pos hle] at h
      by_cases hfit : enc ((minQ + maxQ) / 2) ≤ target
      · rw [if_pos hfit] at h
        refine ih _ _ _ _ ?_ q s h
        intro q' s' hq'
        rw [Option.some.injEq, Prod.mk.injEq] at hq'
        omega
      · rw [if_neg hfit] at h
        exact ih _ _ _ _ hlg q s h
    · rw [if_neg hle] at h
      simp at h
      exact hlg q s h

theorem stdLoop_some_mem (enc : Nat → Nat) (target : Nat) :
    ∀ (fuel minQ maxQ : Nat) (lg : Option (Nat × Nat)) (acc : List (Nat × Nat)),
      (∀ p₀, lg = some p₀ → p₀ ∈ acc) →
      ∀ p, (stdLoop enc target fuel minQ maxQ lg acc).2.1 = some p →
        p ∈ (stdLoop enc target fuel minQ maxQ lg acc).1 := by
  intro fuel
  induction fuel with
  | zero =>
    intro minQ maxQ lg acc hlg p h
    simp [stdLoop] at h ⊢
    exact hlg p h
  | succ k ih =>
    intro minQ maxQ lg acc hlg p h
    rw [stdLoop] at h ⊢
    by_cases hle : minQ ≤ maxQ
    · rw [if_pos hle] at h ⊢
      by_cases hfit : enc ((minQ + maxQ) / 2) ≤ target
      · rw [if_pos hfit] at h ⊢
        refine ih _ _ _ _ ?_ p h
        intro p₀ hp₀
        rw [Option.some.injEq] at hp₀
        simp [hp₀]
      · rw [if_neg hfit] at h ⊢
        refine ih _ _ _ _ ?_ p h
        intro p₀ hp₀
        simp [hlg p₀ hp₀]
    · rw [if_neg hle] at h ⊢
      simp at h ⊢
      exact hlg p h

theorem stdLoop_none_spec (enc : Nat → Nat) (target : Nat) :
    ∀ (fuel minQ maxQ : Nat) (acc : List (Nat × Nat)),
      (stdLoop enc target fuel minQ maxQ none acc).2.1 = none →
      (stdLoop enc target fuel minQ maxQ none acc).2.2 = minQ ∧
      (stdLoop enc target fuel minQ maxQ none acc).1.length =
        acc.length + overflowLen fuel minQ maxQ ∧
      ∀ t ∈ (stdLoop enc target fuel minQ maxQ none acc).1,
        t ∈ acc ∨ target < t.2 := by
  intro fuel
  induction fuel with
  | zero =>
    intro minQ maxQ acc _
    refine ⟨rfl, by simp [stdLoop, overflowLen], ?_⟩
    intro t ht
    simp [stdLoop] at ht
    exact Or.inl ht
  | succ k ih =>
    intro minQ maxQ acc h
    rw [stdLoop] at h ⊢
    by_cases hle : minQ ≤ maxQ
    · rw [if_pos hle] at h ⊢
      by_cases hfit : enc ((minQ + maxQ) / 2) ≤ target
      · rw [if_pos hfit] at h
        have := stdLoop_some_of_some enc target k ((minQ + maxQ) / 2 + 1) maxQ
          ((minQ + maxQ) / 2, enc ((minQ + maxQ) / 2))
          (acc ++ [((minQ + maxQ) / 2, enc ((minQ + maxQ) / 2))])
        rw [h] at this
        cases this
      · rw [if_neg hfit] at h ⊢
        obtain ⟨h1, h2, h3⟩ := ih _ _ _ h
        refine ⟨h1, ?_, ?_⟩
        · rw [h2, overflowLen, if_pos hle]
          simp
          omega
        · intro t ht
          rcases h3 t ht with h4 | h4
          · rcases List.mem_append.mp h4 with h5 | h5
            · exact Or.inl h5
            · simp at h5
              right
              rw [h5]
              omega
          · exact Or.inr h4
    · rw [if_neg hle] at h ⊢
      refine ⟨rfl, by simp [overflowLen, if_neg hle], ?_⟩
      intro t ht
      simp at ht
      exact Or.inl ht

theorem overflowLen_le_24 : ∀ m < 101, overflowLen 25 5 m ≤ 24 := by decide

theorem stdStrategy_eq_of_some (enc : Nat → Nat) (target maxQ0 maxAttempts q s : Nat)
    (h : (stdLoop enc target maxAttempts 5 maxQ0 none []).2.1 = some (q, s)) :
    standardCompressionStrategy enc target maxQ0 maxAttempts =
      { size := s, quality := q,
        trials := (stdLoop enc target maxAttempts 5 maxQ0 none []).1,
        fitted := true } := by
  unfold standardCompressionStrategy
  rw [h]

theorem stdStrategy_eq_of_none (enc : Nat → Nat) (target maxQ0 maxAttempts : Nat)
    (h : (stdLoop enc target maxAttempts 5 maxQ0 none []).2.1 = none) :
    standardCompressionStrategy enc target maxQ0 maxAttempts =
      { size := enc (stdLoop enc target maxAttempts 5 maxQ0 none []).2.2,
        quality := (stdLoop enc target maxAttempts 5 maxQ0 none []).2.2,
        trials := (stdLoop enc target maxAttempts 5 maxQ0 none []).1 ++
          [((stdLoop enc target maxAttempts 5 maxQ0 none []).2.2,
            enc (stdLoop enc target maxAttempts 5 maxQ0 none []).2.2)],
        fitted := false } := by
  unfold standardCompressionStrategy
  rw [h]

theorem stdStrategy_trials_ne_nil (enc : Nat → Nat) (target maxQ0 maxAttempts : Nat) :
    1 ≤ (standardCompressionStrategy enc target maxQ0 maxAttempts).trials.length := by
  cases h : (stdLoop enc target maxAttempts 5 maxQ0 none []).2.1 with
  | none =>
    rw [stdStrategy_eq_of_none enc target maxQ0 maxAttempts h]
    simp
  | some p =>
    cases p with
    | mk q s =>
      have hmem := stdLoop_some_mem enc target maxAttempts 5 maxQ0 none []
        (by intro p₀ h₀; cases h₀) (q, s) h
      rw [stdStrategy_eq_of_some enc target maxQ0 maxAttempts q s h]
      have hne : (stdLoop enc target maxAttempts 5 maxQ0 none []).1 ≠ [] :=
        List.ne_nil_of_mem hmem
      cases hl : (stdLoop enc target maxAttempts 5 maxQ0 none []).1 with
      | nil => exact absurd hl hne
      | cons a l => simp [hl]

/-- **C2 counterexample**: a 10 MiB original with a parsed "50MB" target.
Neither the image nor the video dispatcher rejects it: both route it
into the standard-tier search (ratio ≥ threshold), and the standard
search immediately performs encoder trials. -/
theorem C2_target_ge_original_cex :
    parseTargetSize 50 SizeUnit.MB = 52428800 ∧
    imageCompressMode (10 * 1024 * 1024) 52428800 = SearchMode.standardSearch ∧
    imageCompressMode (10 * 1024 * 1024) 52428800 ≠ SearchMode.invalidRequest ∧
    videoCompressMode (10 * 1024 * 1024) 52428800 = SearchMode.standardSearch ∧
    1 ≤ (standardCompressionStrategy (fun _ => 1000) 52428800 85 25).trials.length := by
  refine ⟨?_, by decide, by decide, by decide, by decide⟩
  norm_num [parseTargetSize, unitBytes]

/-- **C2** (corrected). A target size at least as large as the original is
**not** rejected: no validation exists anywhere on the path, the request
is dispatched to the standard-tier search (the ratio is ≥ every extreme
threshold), and at least one encoder trial runs. -/
theorem C2_no_reject (originalSize targetSize maxQ0 : Nat) (enc : Nat → Nat)
    (h : originalSize ≤ targetSize) :
    imageCompressMode originalSize targetSize = SearchMode.standardSearch ∧
    imageCompressMode originalSize targetSize ≠ SearchMode.invalidRequest ∧
    videoCompressMode originalSize targetSize = SearchMode.standardSearch ∧
    1 ≤ (standardCompressionStrategy enc targetSize maxQ0 25).trials.length := by
  refine ⟨?_, ?_, ?_, stdStrategy_trials_ne_nil enc targetSize maxQ0 25⟩
  · rw [imageCompressMode, if_neg (by omega)]
  · rw [imageCompressMode, if_neg (by omega)]
    decide
  · rw [videoCompressMode, if_neg (by omega)]

/-- **C2 witness**: the no-rejection behaviour at a 100-byte original and
equal 100-byte target, with a constant encoder. -/
theorem C2_no_reject_witness :
    imageCompressMode 100 100 = SearchMode.standardSearch ∧
    imageCompressMode 100 100 ≠ SearchMode.invalidRequest ∧
    videoCompressMode 100 100 = SearchMode.standardSearch ∧
    1 ≤ (standardCompressionStrategy (fun _ => 7) 100 85 25).trials.length :=
  C2_no_reject 100 100 85 (fun _ => 7) (by decide)

/-- **C5 counterexample**: with the non-monotone encoder `c5CexEnc`
(quality 6 → 50 bytes, quality 5 → 60 bytes), budget 40 and quality
ceiling 85, no trial ever fits, a 50-byte trial is observed, yet the
returned result is the fresh quality-5 encode of 60 bytes — not the
minimum-size trial observed. -/
theorem C5_no_fit_cex :
    (∀ t ∈ (standardCompressionStrategy c5CexEnc 40 85 25).trials, 40 < t.2) ∧
    (6, 50) ∈ (standardCompressionStrategy c5CexEnc 40 85 25).trials ∧
    (∀ t ∈ (standardCompressionStrategy c5CexEnc 40 85 25).trials, 50 ≤ t.2) ∧
    (standardCompressionStrategy c5CexEnc 40 85 25).size = 60 := by
  refine ⟨by decide, by decide, by decide, by decide⟩

/-- **C5** (corrected). The image StandardSearch performs at most 25
encoder trials; whenever any trial fit the budget the returned size is
within the budget; and when no trial ever fit, the returned result is a
fresh encode at the search's quality floor 5 (which is itself among the
recorded trials, but need not be the minimum-size trial observed). -/
theorem C5_standard_search (enc : Nat → Nat) (target maxQ0 : Nat)
    (hq : maxQ0 ≤ 100) :
    (standardCompressionStrategy enc target maxQ0 25).trials.length ≤ 25 ∧
    ((∃ t ∈ (standardCompressionStrategy enc target maxQ0 25).trials, t.2 ≤ target) →
      (standardCompressionStrategy enc target maxQ0 25).size ≤ target) ∧
    ((∀ t ∈ (standardCompressionStrategy enc target maxQ0 25).trials, target < t.2) →
      (standardCompressionStrategy enc target maxQ0 25).quality = 5 ∧
      (standardCompressionStrategy enc target maxQ0 25).size = enc 5 ∧
      (5, enc 5) ∈ (standardCompressionStrategy enc target maxQ0 25).trials) := by
  cases h : (stdLoop enc target 25 5 maxQ0 none []).2.1 with
  | some p =>
    cases p with
    | mk q s =>
      have hfit := stdLoop_fit enc target 25 5 maxQ0 none []
        (by intro q' s' h'; cases h') q s h
      have hmem := stdLoop_some_mem enc target 25 5 maxQ0 none []
        (by intro p₀ h₀; cases h₀) (q, s) h
      obtain ⟨tl, htl, hlen⟩ := stdLoop_trials_ext enc target 25 5 maxQ0 none []
      rw [stdStrategy_eq_of_some enc target maxQ0 25 q s h]
      refine ⟨by simp [htl]; omega, fun _ => hfit, ?_⟩
      intro hall
      exact absurd hfit (by simpa using hall (q, s) hmem)
  | none =>
    obtain ⟨h1, h2, h3⟩ := stdLoop_none_spec enc target 25 5 maxQ0 [] h
    have hov : overflowLen 25 5 maxQ0 ≤ 24 := overflowLen_le_24 maxQ0 (by omega)
    rw [stdStrategy_eq_of_none enc target maxQ0 25 h]
    refine ⟨?_, ?_, ?_⟩
    · simp [h2]
      omega
    · rintro ⟨t, ht, htfit⟩
      simp only at ht
      rcases List.mem_append.mp ht with hm | hm
      · rcases h3 t hm with hm' | hm'
        · cases hm'
        · simp only
          omega
      · simp at hm
        rw [h1] at hm
        rw [hm] at htfit
        simp at htfit
        simp only
        rw [h1]
        exact htfit
    · intro _
      simp only
      rw [h1]
      exact ⟨rfl, rfl, by simp⟩

/-- **C5 witness**: the corrected StandardSearch property at a constant
10-byte encoder with budget 20 and ceiling 85 (the first probe fits). -/
theorem C5_standard_search_witness :
    (standardCompressionStrategy (fun _ => 10) 20 85 25).trials.length ≤ 25 ∧
    ((∃ t ∈ (standardCompressionStrategy (fun _ => 10) 20 85 25).trials, t.2 ≤ 20) →
      (standardCompressionStrategy (fun _ => 10) 20 85 25).size ≤ 20) ∧
    ((∀ t ∈ (standardCompressionStrategy (fun _ => 10) 20 85 25).trials, 20 < t.2) →
      (standardCompressionStrategy (fun _ => 10) 20 85 25).quality = 5 ∧
      (standardCompressionStrategy (fun _ => 10) 20 85 25).size = (fun _ => 10) 5 ∧
      (5, (fun _ => 10) 5) ∈ (standardCompressionStrategy (fun _ => 10) 20 85 25).trials) :=
  C5_standard_search (fun _ => 10) 20 85 (by decide)

/-- **C9** (confirmed). The standard-tier video bitrate is
`max(100, min(10000, floor(((T × 8 × 0.85) / d − 96 × 1024) / 1024)))`
kbps with audio fixed at 96 kbps, where `d` is the probed duration when
it is a positive readable value and the 60-second fallback otherwise
(probed durations are nonnegative). -/
theorem C9_standard_bitrate (targetSize : ℚ) (durOpt : Option ℚ)
    (h : ∀ x ∈ durOpt, 0 ≤ x) :
    standardVideoBitrate targetSize durOpt = specVideoBitrateC9 targetSize durOpt := by
  have hdur : jsDurationOr60 durOpt = specDurationC9 durOpt := by
    cases durOpt with
    | none => rfl
    | some x =>
      have hx : 0 ≤ x := h x (by simp)
      by_cases hx0 : x = 0
      · simp [jsDurationOr60, specDurationC9, hx0]
      · have hxpos : 0 < x := lt_of_le_of_ne hx (Ne.symm hx0)
        simp [jsDurationOr60, specDurationC9, hx0, hxpos]
  unfold standardVideoBitrate specVideoBitrateC9
  rw [hdur]
  omega

/-- **C9 witness**: the bitrate equality at a 1 MB target and a probed
zero duration (the division-by-zero guard case). -/
theorem C9_standard_bitrate_witness :
    standardVideoBitrate 1000000 (some 0) = specVideoBitrateC9 1000000 (some 0) :=
  C9_standard_bitrate 1000000 (some 0) (by norm_num)

theorem length_insertBy (lt : α → α → Bool) (t : α) :
    ∀ l : List α, (insertBy lt t l).length = l.length + 1 := by
  intro l
  induction l with
  | nil => rfl
  | cons u us ih =>
    cases hc : lt u t <;> simp [insertBy, hc, ih]

theorem length_jsSort (lt : α → α → Bool) :
    ∀ l : List α, (jsSort lt l).length = l.length := by
  intro l
  induction l with
  | nil => rfl
  | cons x xs ih => simp [jsSort, length_insertBy, ih]

theorem mem_insertBy (lt : α → α → Bool) (t a : α) :
    ∀ l : List α, a ∈ insertBy lt t l ↔ a = t ∨ a ∈ l := by
  intro l
  induction l with
  | nil => simp [insertBy]
  | cons u us ih =>
    cases hc : lt u t <;> simp [insertBy, hc, ih] <;> tauto

theorem mem_jsSort (lt : α → α → Bool) (a : α) :
    ∀ l : List α, a ∈ jsSort lt l ↔ a ∈ l := by
  intro l
  induction l with
  | nil => simp [jsSort]
  | cons x xs ih => simp [jsSort, mem_insertBy, ih]

theorem jsSort_ne_nil (lt : α → α → Bool) {l : List α} (h : l ≠ []) :
    jsSort lt l ≠ [] := by
  intro hc
  apply h
  have := length_jsSort lt l
  rw [hc] at this
  exact List.eq_nil_of_length_eq_zero this.symm

theorem jsSort_head?_firstBy (lt : α → α → Bool) :
    ∀ l : List α, (jsSort lt l).head? = firstBy lt l := by
  intro l
  induction l with
  | nil => rfl
  | cons x xs ih =>
    rw [jsSort, firstBy]
    cases hs : jsSort lt xs with
    | nil =>
      have hxs : xs = [] := by
        have := length_jsSort lt xs
        rw [hs] at this
        exact List.eq_nil_of_length_eq_zero this.symm
      subst hxs
      rfl
    | cons u us =>
      have hfb : firstBy lt xs = some u := by rw [← ih, hs]; rfl
      rw [hfb]
      cases hc : lt u x <;> simp [insertBy, hc]

theorem head?_mem {l : List α} {a : α} (h : l.head? = some a) : a ∈ l := by
  cases l with
  | nil => cases h
  | cons x xs =>
    simp at h
    simp [h]

theorem selectBestStrategy_spec (P : ExtremeTrial → Prop)
    (lst : List ExtremeTrial) (fastest bq : Option ExtremeTrial) (target : Nat)
    (hlst : ∀ x ∈ lst, P x) (hb : ∀ x, bq = some x → P x) (hne : lst ≠ []) :
    ∃ c, selectBestStrategy lst fastest bq target = some c ∧ P c := by
  cases lst with
  | nil => exact absurd rfl hne
  | cons smallest rest =>
    simp only [selectBestStrategy]
    by_cases h1 : rest.isEmpty
    · rw [if_pos h1]
      exact ⟨smallest, rfl, hlst _ (by simp)⟩
    · rw [if_neg h1]
      by_cases h2 : fastest = some smallest
      · rw [if_pos h2]
        exact ⟨smallest, rfl, hlst _ (by simp)⟩
      · rw [if_neg h2]
        cases hbq : bq with
        | none => exact ⟨smallest, rfl, hlst _ (by simp)⟩
        | some b =>
          by_cases h3 : ((b.size : ℚ) / (target : ℚ)) * 100 ≤ 95
          · refine ⟨b, ?_, hb b hbq⟩
            show (if ((b.size : ℚ) / (target : ℚ)) * 100 ≤ 95 then some b
              else some smallest) = some b
            rw [if_pos h3]
          · refine ⟨smallest, ?_, hlst _ (by simp)⟩
            show (if ((b.size : ℚ) / (target : ℚ)) * 100 ≤ 95 then some b
              else some smallest) = some smallest
            rw [if_neg h3]

theorem choosePolicy_spec (policy : SelPolicy) (P : ExtremeTrial → Prop)
    (lst : List ExtremeTrial) (fastest bq : Option ExtremeTrial) (target : Nat)
    (hlst : ∀ x ∈ lst, P x) (hf : ∀ x, fastest = some x → P x)
    (hb : ∀ x, bq = some x → P x) (hne : lst ≠ []) :
    ∃ c, choosePolicy policy lst fastest bq target = some c ∧ P c := by
  cases lst with
  | nil => exact absurd rfl hne
  | cons x xs =>
    cases policy with
    | size => exact ⟨x, rfl, hlst _ (by simp)⟩
    | speed =>
      cases hfa : fastest with
      | some fx => exact ⟨fx, by simp [choosePolicy, hfa], hf fx hfa⟩
      | none => exact ⟨x, by simp [choosePolicy, hfa], hlst _ (by simp)⟩
    | quality =>
      cases hbq : bq with
      | some b => exact ⟨b, by simp [choosePolicy, hbq], hb b hbq⟩
      | none => exact ⟨x, by simp [choosePolicy, hbq], hlst _ (by simp)⟩
    | auto =>
      exact selectBestStrategy_spec P (x :: xs) fastest bq target hlst hb
        (by simp)

/-- **C7** (confirmed). Under an explicit output format, the chosen trial
is a successful one of that format whenever some successful trial has
that format; only when no trial of the format succeeded does selection
fall back to the unfiltered successful set (the chosen trial is still a
successful one). -/
theorem C7_format_filter (results : List ExtremeTrial) (target : Nat)
    (f : ImgFormat) (policy : SelPolicy)
    (hok : results.filter (trialSuccess target) ≠ []) :
    ∃ c, extremeSelect results target (some f) policy = some c ∧
      c ∈ results.filter (trialSuccess target) ∧
      (results.filter (fun r => trialSuccess target r && formatIs f r) ≠ [] →
        c.format = f) := by
  have hne : jsSort sizeLtB (results.filter (trialSuccess target)) ≠ [] :=
    jsSort_ne_nil _ hok
  have hempty : (jsSort sizeLtB (results.filter (trialSuccess target))).isEmpty
      = false := by
    cases hc : jsSort sizeLtB (results.filter (trialSuccess target)) with
    | nil => exact absurd hc hne
    | cons a l => rfl
  rw [extremeSelect, hempty, if_neg Bool.false_ne_true]
  by_cases hfe : ((jsSort sizeLtB (results.filter (trialSuccess target))).filter
      (formatIs f)).isEmpty
  · rw [if_pos hfe]
    have hboth : results.filter (fun r => trialSuccess target r && formatIs f r)
        = [] := by
      rw [List.eq_nil_iff_forall_not_mem]
      intro x hx
      rw [List.mem_filter, Bool.and_eq_true] at hx
      have hxf : x ∈ (jsSort sizeLtB (results.filter (trialSuccess target))).filter
          (formatIs f) := by
        rw [List.mem_filter, mem_jsSort, List.mem_filter]
        exact ⟨⟨hx.1, hx.2.1⟩, hx.2.2⟩
      rw [List.isEmpty_iff] at hfe
      rw [hfe] at hxf
      cases hxf
    obtain ⟨c, hc1, hc2⟩ := choosePolicy_spec policy
      (fun c => c ∈ results.filter (trialSuccess target))
      (jsSort sizeLtB (results.filter (trialSuccess target)))
      ((jsSort timeLtB (results.filter (trialSuccess target))).head?)
      ((jsSort sizeGtB (results.filter (trialSuccess target))).head?) target
      (by intro x hx; rw [mem_jsSort] at hx; exact hx)
      (by intro x hx; have := head?_mem hx; rw [mem_jsSort] at this; exact this)
      (by intro x hx; have := head?_mem hx; rw [mem_jsSort] at this; exact this)
      hne
    exact ⟨c, hc1, hc2, fun hcon => absurd hboth hcon⟩
  · rw [if_neg hfe]
    have hfne : (jsSort sizeLtB (results.filter (trialSuccess target))).filter
        (formatIs f) ≠ [] := by
      intro hc
      rw [← List.isEmpty_iff] at hc
      exact hfe hc
    have hmemP : ∀ x ∈ jsSort sizeGtB
        ((jsSort sizeLtB (results.filter (trialSuccess target))).filter
          (formatIs f)),
        x ∈ results.filter (trialSuccess target) ∧ x.format = f := by
      intro x hx
      rw [mem_jsSort, List.mem_filter, mem_jsSort] at hx
      refine ⟨hx.1, ?_⟩
      have := hx.2
      rw [formatIs, beq_iff_eq] at this
      exact this
    obtain ⟨c, hc1, hc2⟩ := choosePolicy_spec policy
      (fun c => c ∈ results.filter (trialSuccess target) ∧ c.format = f)
      (jsSort sizeGtB ((jsSort sizeLtB (results.filter (trialSuccess target))).filter
        (formatIs f)))
      ((jsSort timeLtB (results.filter
        (fun r => trialSuccess target r && formatIs f r))).head?)
      ((jsSort sizeGtB ((jsSort sizeLtB (results.filter (trialSuccess target))).filter
        (formatIs f))).head?) target
      hmemP
      (by
        intro x hx
        have hm := head?_mem hx
        rw [mem_jsSort, List.mem_filter, Bool.and_eq_true] at hm
        refine ⟨List.mem_filter.mpr ⟨hm.1, hm.2.1⟩, ?_⟩
        have := hm.2.2
        rw [formatIs, beq_iff_eq] at this
        exact this)
      (by intro x hx; exact hmemP x (head?_mem hx))
      (jsSort_ne_nil _ hfne)
    exact ⟨c, hc1, hc2.1, fun _ => hc2.2⟩

/-- **C7 witness**: the format-respecting selection at the concrete
two-JPEG-trial batch, budget 20, requested format JPEG, size policy. -/
theorem C7_format_filter_witness :
    ∃ c, extremeSelect c6CexTrials 20 (some ImgFormat.jpeg) SelPolicy.size
        = some c ∧
      c ∈ c6CexTrials.filter (trialSuccess 20) ∧
      (c6CexTrials.filter
          (fun r => trialSuccess 20 r && formatIs ImgFormat.jpeg r) ≠ [] →
        c.format = ImgFormat.jpeg) :=
  C7_format_filter c6CexTrials 20 ImgFormat.jpeg SelPolicy.size (by decide)

/-- **C6 counterexample**: two successful JPEG trials, budget 20, explicit
JPEG output format, auto policy. Trial 1 (10 bytes, 1 ms) is both the
fastest and the smallest successful trial, so the claim requires it to be
chosen; but the in-place descending re-sort of `filteredSuccessful` makes
the code treat trial 0 (20 bytes) as `smallest`, the free-win test fails,
the 100%-utilization quality test fails, and trial 0 is returned. -/
theorem C6_auto_cex :
    extremeSelect c6CexTrials 20 (some ImgFormat.jpeg) SelPolicy.auto =
      some ⟨0, ImgFormat.jpeg, 20, 5, false⟩ ∧
    specAutoChoiceC6 (c6CexTrials.filter (trialSuccess 20)) 20 =
      some ⟨1, ImgFormat.jpeg, 10, 1, false⟩ ∧
    extremeSelect c6CexTrials 20 (some ImgFormat.jpeg) SelPolicy.auto ≠
      specAutoChoiceC6 (c6CexTrials.filter (trialSuccess 20)) 20 := by
  have h0 : extremeSelect c6CexTrials 20 (some ImgFormat.jpeg) SelPolicy.auto =
      selectBestStrategy
        [⟨0, ImgFormat.jpeg, 20, 5, false⟩, ⟨1, ImgFormat.jpeg, 10, 1, false⟩]
        (some ⟨1, ImgFormat.jpeg, 10, 1, false⟩)
        (some ⟨0, ImgFormat.jpeg, 20, 5, false⟩) 20 := rfl
  have h1 : selectBestStrategy
      [⟨0, ImgFormat.jpeg, 20, 5, false⟩, ⟨1, ImgFormat.jpeg, 10, 1, false⟩]
      (some ⟨1, ImgFormat.jpeg, 10, 1, false⟩)
      (some ⟨0, ImgFormat.jpeg, 20, 5, false⟩) 20 =
      some ⟨0, ImgFormat.jpeg, 20, 5, false⟩ := by
    simp only [selectBestStrategy]
    rw [if_neg (by decide), if_neg (by decide)]
    split <;> rfl
  have h2 : specAutoChoiceC6 (c6CexTrials.filter (trialSuccess 20)) 20 =
      some ⟨1, ImgFormat.jpeg, 10, 1, false⟩ := by decide
  refine ⟨h0.trans h1, h2, ?_⟩
  rw [h0.trans h1, h2]
  decide

/-- **C6** (corrected). For image ExtremeSearch invocations **without an
explicit output format**, the auto policy follows the claimed rule: the
trial that is both fastest and smallest when they coincide, else the
best-quality trial when it uses at most 95% of the budget, else the
smallest. (With an explicit format the rule is violated, see the
counterexample.) -/
theorem C6_auto_no_format (results : List ExtremeTrial) (target : Nat)
    (htgt : 0 < target) :
    extremeSelect results target none SelPolicy.auto =
      specAutoChoiceC6 (results.filter (trialSuccess target)) target := by
  rw [extremeSelect]
  cases hok : results.filter (trialSuccess target) with
  | nil =>
    simp [jsSort, specAutoChoiceC6, firstBy, specAutoCore]
  | cons y ys =>
    have hne : jsSort sizeLtB (y :: ys) ≠ [] := jsSort_ne_nil _ (by simp)
    have hempty : (jsSort sizeLtB (y :: ys)).isEmpty = false := by
      cases hc : jsSort sizeLtB (y :: ys) with
      | nil => exact absurd hc hne
      | cons a l => rfl
    rw [hempty, if_neg Bool.false_ne_true]
    simp only [choosePolicy]
    cases hs : jsSort sizeLtB (y :: ys) with
    | nil => exact absurd hs hne
    | cons smallest rest =>
      have hsm : firstBy sizeLtB (y :: ys) = some smallest := by
        rw [← jsSort_head?_firstBy, hs]
        rfl
      rw [specAutoChoiceC6, hsm]
      simp only [specAutoCore, selectBestStrategy]
      rw [jsSort_head?_firstBy, jsSort_head?_firstBy]
      by_cases h1 : rest.isEmpty
      · rw [if_pos h1]
        rw [List.isEmpty_iff] at h1
        subst h1
        have hlen : (y :: ys).length = 1 := by
          have := length_jsSort sizeLtB (y :: ys)
          rw [hs] at this
          simpa using this.symm
        have hyys : ys = [] := by
          cases ys with
          | nil => rfl
          | cons a l => simp at hlen
        subst hyys
        have hyx : smallest = y := by
          have := hs
          rw [show jsSort sizeLtB [y] = [y] from rfl] at this
          injection this with h1 h2
          exact h1.symm
        subst hyx
        rw [show firstBy timeLtB [smallest] = some smallest from rfl,
          if_pos rfl]
      · rw [if_neg h1]
        by_cases h2 : firstBy timeLtB (y :: ys) = some smallest
        · rw [if_pos h2, if_pos h2]
        · rw [if_neg h2, if_neg h2]
          cases hbq : firstBy sizeGtB (y :: ys) with
          | none => rfl
          | some b =>
            show (if ((b.size : ℚ) / (target : ℚ)) * 100 ≤ 95 then some b
                else some smallest) =
              (if 100 * b.size ≤ 95 * target then some b else some smallest)
            have htq : (0 : ℚ) < (target : ℚ) := by exact_mod_cast htgt
            have hiff : ((b.size : ℚ) / (target : ℚ)) * 100 ≤ 95 ↔
                100 * b.size ≤ 95 * target := by
              rw [div_mul_eq_mul_div, div_le_iff htq,
                show (b.size : ℚ) * 100 = ((100 * b.size : ℕ) : ℚ) by
                  push_cast; ring,
                show (95 : ℚ) * (target : ℚ) = ((95 * target : ℕ) : ℚ) by
                  push_cast; ring]
              exact Nat.cast_le
            by_cases h3 : 100 * b.size ≤ 95 * target
            · rw [if_pos (hiff.mpr h3), if_pos h3]
            · rw [if_neg (fun hc => h3 (hiff.mp hc)), if_neg h3]

/-- **C6 witness**: the no-format auto rule at the concrete two-trial
batch: both sides select trial 1, the free win that is fastest and
smallest at once. -/
theorem C6_auto_no_format_witness :
    extremeSelect c6CexTrials 20 none SelPolicy.auto =
      specAutoChoiceC6 (c6CexTrials.filter (trialSuccess 20)) 20 :=
  C6_auto_no_format c6CexTrials 20 (by decide)

/-- **C10** (confirmed). The fragmentation step expands each file in
place and in order; every non-image file and every image below 100 MiB
passes through unchanged; every image of at least 100 MiB becomes exactly
`max(2, threadCount)` fragments, the first ones of height
`floor(imageHeight / fragmentCount)`, the last taking every remaining
row; the fragments' row ranges are pairwise disjoint and together cover
every pixel row. -/
theorem C10_fragmentation (files : List MediaFile) (threadCount : Nat) :
    splitLargeImagesIntoFragments files threadCount =
      (files.map (expandFile threadCount)).flatten ∧
    (∀ f : MediaFile,
      (imageExts.contains f.ext.toLower = false ∨ f.size < minFragmentSize) →
      expandFile threadCount f = [FragItem.file f]) ∧
    (∀ f : MediaFile, imageExts.contains f.ext.toLower = true →
      minFragmentSize ≤ f.size →
      expandFile threadCount f =
        (List.range (max 2 threadCount)).map (fun i =>
          FragItem.fragment f i (max 2 threadCount)
            (fragTop f.height (max 2 threadCount) i)
            (fragHeight f.height (max 2 threadCount) i)) ∧
      (expandFile threadCount f).length = max 2 threadCount) ∧
    (∀ H n i : Nat, i < n - 1 → fragHeight H n i = H / n) ∧
    (∀ H n : Nat, fragHeight H n (n - 1) = H - (n - 1) * (H / n)) ∧
    (∀ H n i j : Nat, i < j → j < n →
      fragTop H n i + fragHeight H n i ≤ fragTop H n j) ∧
    (∀ H n r : Nat, 2 ≤ n → r < H →
      ∃ i, i < n ∧ fragTop H n i ≤ r ∧ r < fragTop H n i + fragHeight H n i) := by
  refine ⟨rfl, ?_, ?_, ?_, ?_, ?_, ?_⟩
  · intro f h
    rcases h with h | h
    · rw [expandFile, if_pos (by rw [h]; rfl)]
    · by_cases hc : imageExts.contains f.ext.toLower
      · rw [expandFile, if_neg (by rw [hc]; simp), if_pos h]
      · rw [expandFile,
          if_pos (by rw [Bool.eq_false_iff.mpr hc]; rfl)]
  · intro f h1 h2
    constructor
    · rw [expandFile, if_neg (by rw [h1]; simp), if_neg (Nat.not_lt.mpr h2)]
      rfl
    · rw [expandFile, if_neg (by rw [h1]; simp), if_neg (Nat.not_lt.mpr h2)]
      simp [minFragments]
  · intro H n i hi
    rw [fragHeight, if_neg (by omega)]
  · intro H n
    rw [fragHeight, if_pos rfl, fragTop]
  · intro H n i j hij hjn
    have hne : i ≠ n - 1 := by omega
    rw [fragHeight, if_neg hne, fragTop, fragTop]
    have h := Nat.mul_le_mul_right (H / n) (show i + 1 ≤ j by omega)
    rw [Nat.succ_mul] at h
    exact h
  · intro H n r h2 hr
    by_cases hfh : H / n = 0
    · refine ⟨n - 1, by omega, by simp [fragTop, hfh], ?_⟩
      rw [fragTop, fragHeight, if_pos rfl, fragTop, hfh]
      simp
      omega
    · rcases Nat.lt_or_ge (r / (H / n)) (n - 1) with hlt | hge
      · refine ⟨r / (H / n), by omega, ?_, ?_⟩
        · rw [fragTop]
          exact Nat.div_mul_le_self r (H / n)
        · rw [fragTop, fragHeight, if_neg (by omega)]
          have hmod := Nat.div_add_mod r (H / n)
          have hmlt : r % (H / n) < H / n :=
            Nat.mod_lt _ (Nat.pos_of_ne_zero hfh)
          have hcomm : (H / n) * (r / (H / n)) = (r / (H / n)) * (H / n) :=
            Nat.mul_comm _ _
          omega
      · refine ⟨n - 1, by omega, ?_, ?_⟩
        · rw [fragTop]
          calc (n - 1) * (H / n) ≤ (r / (H / n)) * (H / n) :=
                Nat.mul_le_mul_right _ hge
            _ ≤ r := Nat.div_mul_le_self _ _
        · rw [fragTop, fragHeight, if_pos rfl, fragTop]
          have hle : (n - 1) * (H / n) ≤ H := by
            calc (n - 1) * (H / n) ≤ n * (H / n) :=
                  Nat.mul_le_mul_right _ (by omega)
              _ ≤ H := by
                  rw [Nat.mul_comm]
                  exact Nat.div_mul_le_self H n
          omega

/-- **C10 witness**: the fragmentation contract applied to a concrete
batch of one 200 MiB JPEG and one small PNG with a 3-thread pool. -/
theorem C10_fragmentation_witness :
    splitLargeImagesIntoFragments
        [⟨".jpg", 200 * 1024 * 1024, 5000, 5000⟩, ⟨".png", 1000, 10, 10⟩] 3 =
      (([⟨".jpg", 200 * 1024 * 1024, 5000, 5000⟩,
        (⟨".png", 1000, 10, 10⟩ : MediaFile)]).map (expandFile 3)).flatten ∧
    (∀ f : MediaFile,
      (imageExts.contains f.ext.toLower = false ∨ f.size < minFragmentSize) →
      expandFile 3 f = [FragItem.file f]) ∧
    (∀ f : MediaFile, imageExts.contains f.ext.toLower = true →
      minFragmentSize ≤ f.size →
      expandFile 3 f =
        (List.range (max 2 3)).map (fun i =>
          FragItem.fragment f i (max 2 3)
            (fragTop f.height (max 2 3) i)
            (fragHeight f.height (max 2 3) i)) ∧
      (expandFile 3 f).length = max 2 3) ∧
    (∀ H n i : Nat, i < n - 1 → fragHeight H n i = H / n) ∧
    (∀ H n : Nat, fragHeight H n (n - 1) = H - (n - 1) * (H / n)) ∧
    (∀ H n i j : Nat, i < j → j < n →
      fragTop H n i + fragHeight H n i ≤ fragTop H n j) ∧
    (∀ H n r : Nat, 2 ≤ n → r < H →
      ∃ i, i < n ∧ fragTop H n i ≤ r ∧ r < fragTop H n i + fragHeight H n i) :=
  C10_fragmentation
    [⟨".jpg", 200 * 1024 * 1024, 5000, 5000⟩, ⟨".png", 1000, 10, 10⟩] 3

end Shpck
